import Mathlib

/-!
Verification of the cookie-clicker simulator (`src/cookie_clicker.py`).

Python floats are modelled as rationals (`ℚ`); `math.ceil` is `Int.ceil`;
Python `None` is `Option.none`.  The fallible `time_until` (which can raise
`ZeroDivisionError`) returns `Option ℚ`, with `none` marking the raise.
-/

/-- A history event `(time, item, cost of item, total cookies)`,
as stored in `ClickerState._history`. -/
structure HistEvent where
  time : ℚ
  item : Option String
  cost : ℚ
  total : ℚ
  deriving DecidableEq, Repr

/-- The game state of `ClickerState.__init__`: total cookies, current
cookies, current time, cps and the history list. -/
structure ClickerState where
  total_cookies : ℚ
  current_cookies : ℚ
  current_time : ℚ
  cps : ℚ
  history : List HistEvent
  deriving DecidableEq, Repr

namespace ClickerState

/-- `ClickerState.__init__`: all counters zero, cps 1.0, sentinel history. -/
def init : ClickerState :=
  { total_cookies := 0, current_cookies := 0, current_time := 0, cps := 1,
    history := [⟨0, none, 0, 0⟩] }

/-- `ClickerState.get_cookies`. -/
def get_cookies (s : ClickerState) : ℚ := s.current_cookies

/-- `ClickerState.get_cps`. -/
def get_cps (s : ClickerState) : ℚ := s.cps

/-- `ClickerState.get_time`. -/
def get_time (s : ClickerState) : ℚ := s.current_time

/-- `ClickerState.get_history` (the copy it returns is value-equal to the
internal list). -/
def get_history (s : ClickerState) : List HistEvent := s.history

/-- `ClickerState.time_until`: `0.0` if `cookies <= self.get_cookies()`,
otherwise `math.ceil((cookies - self.get_cookies()) / self.get_cps())`.
Python division raises `ZeroDivisionError` when `self._cps == 0`; that
raise is modelled as `none`. -/
def time_until (s : ClickerState) (cookies : ℚ) : Option ℚ :=
  if cookies ≤ s.get_cookies then some 0
  else if s.get_cps = 0 then none
  else some ((⌈(cookies - s.get_cookies) / s.get_cps⌉ : ℤ) : ℚ)

/-- `ClickerState.wait`: no-op for `time <= 0.0`, otherwise advance the
clock and accrue `cps * time` cookies into both counters. -/
def wait (s : ClickerState) (time : ℚ) : ClickerState :=
  if time ≤ 0 then s
  else
    { s with
      current_time := s.current_time + time,
      current_cookies := s.current_cookies + s.get_cps * time,
      total_cookies := s.total_cookies + s.get_cps * time }

/-- `ClickerState.buy_item`: no-op if `cost > self.get_cookies()`, otherwise
deduct the cost, add the cps and append a history event. -/
def buy_item (s : ClickerState) (item_name : String) (cost additional_cps : ℚ) :
    ClickerState :=
  if s.get_cookies < cost then s
  else
    { s with
      current_cookies := s.current_cookies - cost,
      cps := s.cps + additional_cps,
      history := s.history ++ [⟨s.get_time, some item_name, cost, s.total_cookies⟩] }

end ClickerState

/-- Modelled from the spec: the item catalog (`poc_clicker_provided.BuildInfo`,
imported by the code but not part of this repository).  Per §3/§4.1 of the
spec it maps each item to a current cost, a fixed production-rate
contribution and a fixed multiplicative growth factor; `build_items` lists
the item identifiers.  Cloning has value semantics here, so `clone` is the
identity. -/
structure BuildInfo where
  build_items : List String
  get_cost : String → ℚ
  get_cps : String → ℚ
  growth : String → ℚ

namespace BuildInfo

/-- Modelled from the spec: `BuildInfo.clone` returns an independent copy;
with value semantics this is the identity. -/
def clone (b : BuildInfo) : BuildInfo := b

/-- Modelled from the spec: `BuildInfo.update_item` multiplies the stored
cost of the item by its growth factor and changes nothing else. -/
def update_item (b : BuildInfo) (item : String) : BuildInfo :=
  { b with get_cost := fun j => if j = item then b.get_cost item * b.growth item
                                else b.get_cost j }

/-- `update_item` iterated `n` times on the same item. -/
def update_iter (b : BuildInfo) (item : String) : ℕ → BuildInfo
  | 0 => b
  | n + 1 => (b.update_iter item n).update_item item

end BuildInfo

/-- The strategy signature
`(cookies, cps, history, time_left, build_info) -> item or None`. -/
def Strategy : Type :=
  ℚ → ℚ → List HistEvent → ℚ → BuildInfo → Option String

/-- Result of one iteration of the purchase-and-wait loop of
`simulate_clicker`: break out (`exit`), a propagated `ZeroDivisionError`
from `time_until` (`err`), or continue with the updated state and catalog. -/
inductive Phase1Res where
  | exit
  | err
  | cont (s : ClickerState) (b : BuildInfo)

/-- One iteration of the first (purchase-and-wait) loop of
`simulate_clicker`: break if past the duration, if the strategy stops, or
if the required wait overshoots the duration; otherwise wait (skipped when
the wait time is 0), buy the item, and update the catalog. -/
def phase1Step (duration : ℚ) (strategy : Strategy) (s : ClickerState)
    (b : BuildInfo) : Phase1Res :=
  if duration < s.get_time then .exit
  else
    match strategy s.get_cookies s.get_cps s.get_history (duration - s.get_time) b with
    | none => .exit
    | some item =>
      match s.time_until (b.get_cost item) with
      | none => .err
      | some wait_time =>
        if duration < s.get_time + wait_time then .exit
        else
          .cont (((if wait_time = 0 then s else s.wait wait_time)).buy_item item
                   (b.get_cost item) (b.get_cps item))
                (b.update_item item)

/-- Outcome of one whole loop (or run): final state and catalog, or a
propagated error. -/
inductive SimRes where
  | ok (s : ClickerState) (b : BuildInfo)
  | err

/-- The first loop of `simulate_clicker`, run with explicit fuel: `none`
means the fuel ran out before the loop finished. -/
def runPhase1 (duration : ℚ) (strategy : Strategy) :
    ℕ → ClickerState → BuildInfo → Option SimRes
  | 0, _, _ => none
  | fuel + 1, s, b =>
    match phase1Step duration strategy s b with
    | .exit => some (.ok s b)
    | .err => some .err
    | .cont s' b' => runPhase1 duration strategy fuel s' b'

/-- One iteration of the terminal sweep of `simulate_clicker`: `none` when
the loop breaks (strategy stops or the item is unaffordable), otherwise the
state after buying.  The catalog is not updated by the sweep. -/
def sweepStep (duration : ℚ) (strategy : Strategy) (s : ClickerState)
    (b : BuildInfo) : Option ClickerState :=
  match strategy s.get_cookies s.get_cps s.get_history (duration - s.get_time) b with
  | none => none
  | some item =>
    if b.get_cost item ≤ s.get_cookies then
      some (s.buy_item item (b.get_cost item) (b.get_cps item))
    else none

/-- The terminal sweep of `simulate_clicker`, run with explicit fuel. -/
def runSweep (duration : ℚ) (strategy : Strategy) :
    ℕ → ClickerState → BuildInfo → Option ClickerState
  | 0, _, _ => none
  | fuel + 1, s, b =>
    match sweepStep duration strategy s b with
    | none => some s
    | some s' => runSweep duration strategy fuel s' b

/-- `simulate_clicker`, with explicit fuel for each of its two loops
(`none` = fuel exhausted): clone the catalog, start from a fresh state, run
the purchase-and-wait loop, let the remaining time run out, then run the
terminal sweep.  The working catalog is returned as well so that its final
contents can be inspected. -/
def simulate_clicker (fuel : ℕ) (build_info : BuildInfo) (duration : ℚ)
    (strategy : Strategy) : Option SimRes :=
  match runPhase1 duration strategy fuel ClickerState.init build_info.clone with
  | none => none
  | some .err => some .err
  | some (.ok s1 b1) =>
    let s2 := s1.wait (duration - s1.get_time)
    match runSweep duration strategy fuel s2 b1 with
    | none => none
    | some s3 => some (.ok s3 b1)

/-- `simulate_clicker` terminates on these arguments: some finite fuel
completes both loops (a propagated error also counts as termination, since
the loops are then finite). -/
def Terminates (build_info : BuildInfo) (duration : ℚ) (strategy : Strategy) :
    Prop :=
  ∃ fuel, (simulate_clicker fuel build_info duration strategy).isSome

/-- First element of minimal cost in a `(cost, item)` list, ties resolved
towards the earlier element — the head of Python's stable
`sorted(available_items, key=lambda d_x: d_x[0])`. -/
def cheapest : List (ℚ × String) → Option (ℚ × String)
  | [] => none
  | x :: xs =>
    match cheapest xs with
    | none => some x
    | some y => if y.1 < x.1 then some y else some x

/-- `strategy_cheap`: affordability is screened against
`time_left / cps` (the code's formula, kept verbatim; contrast
`strategy_expensive`, which uses `cookies + time_left * cps`), then the
cheapest surviving item is returned.  (In Python `time_left / cps` raises
for `cps == 0`; here division by zero yields 0, which only matters outside
the driver, where `cps ≥ 1` always.) -/
def strategy_cheap (cookies cps : ℚ) (history : List HistEvent)
    (time_left : ℚ) (build_info : BuildInfo) : Option String :=
  let potential_cookies := time_left / cps
  let available_items :=
    (build_info.build_items.filter
      (fun item => build_info.get_cost item ≤ potential_cookies)).map
      (fun item => (build_info.get_cost item, item))
  (cheapest available_items).map (fun d_x => d_x.2)

/-- One mutation of a `ClickerState` from outside: the two mutators of the
class, with arbitrary arguments. -/
inductive Op where
  | wait (time : ℚ)
  | buy (item : String) (cost : ℚ) (additional_cps : ℚ)

/-- Apply one operation to a state. -/
def applyOp (s : ClickerState) : Op → ClickerState
  | .wait t => s.wait t
  | .buy i c a => s.buy_item i c a

/-- The state reached from a fresh `ClickerState` by a sequence of `wait`
and `buy_item` calls. -/
def runOps (ops : List Op) : ClickerState :=
  ops.foldl applyOp ClickerState.init

/-- Sum of the `cost` fields of a history. -/
def histCost (h : List HistEvent) : ℚ :=
  (h.map HistEvent.cost).sum

/-- A state whose rate is negative: `time_until` returns normally on it. -/
def negRateState : ClickerState :=
  { total_cookies := 0, current_cookies := 0, current_time := 0, cps := -1,
    history := [⟨0, none, 0, 0⟩] }

/-- Invariant carried by every reachable state: history sorted by
non-decreasing time, every recorded time at most the current time, and the
sentinel at the head. -/
def histInv (s : ClickerState) : Prop :=
  (s.history.Chain' fun a b => a.time ≤ b.time) ∧
  (∀ e ∈ s.history, e.time ≤ s.current_time) ∧
  s.history.head? = some ⟨0, none, 0, 0⟩

/-- The mutator arguments a well-formed caller supplies: purchases carry a
non-negative cost and a non-negative rate increase. -/
def goodOp : Op → Prop
  | .wait _ => True
  | .buy _ cost additional_cps => 0 ≤ cost ∧ 0 ≤ additional_cps

/-- Invariant used for C8: non-negative rate and balance at most total. -/
def balInv (s : ClickerState) : Prop :=
  0 ≤ s.cps ∧ s.current_cookies ≤ s.total_cookies

/-- A one-item catalog: "A" costs 50, grants 1 cps, growth factor 2. -/
def catC3 : BuildInfo := ⟨["A"], fun _ => 50, fun _ => 1, fun _ => 2⟩

/-- A one-item catalog: "A" costs 1, grants 1 cps, growth factor 2. -/
def catC9 : BuildInfo := ⟨["A"], fun _ => 1, fun _ => 1, fun _ => 2⟩

/-- A strategy that stops while time remains and asks for "A" once the
horizon is exhausted, steering all purchases into the terminal sweep. -/
def stratC9 : Strategy := fun _ _ _ time_left _ =>
  if time_left ≤ 0 then some "A" else none

/-- Observable projection of a run result: the final history and the final
stored cost of item "A" in the working catalog. -/
def obsA : Option SimRes → Option (List HistEvent × ℚ)
  | none => none
  | some .err => none
  | some (.ok s b) => some (s.history, b.get_cost "A")

/-- A state with 5 cookies and cps 1 used to witness a phase-1 purchase. -/
def s0W : ClickerState := ⟨0, 5, 0, 1, []⟩

/-- Item "A": cost 2, contribution 1 cps, growth factor 2. -/
def catW : BuildInfo := ⟨["A"], fun _ => 2, fun _ => 1, fun _ => 2⟩

/-- A strategy that always picks "A". -/
def stratW : Strategy := fun _ _ _ _ _ => some "A"

/-- Catalog-side conditions for termination: a uniform positive lower
bound `c` on every cost the strategy can name, growth factors at least 1
and non-negative rate contributions (the spec's data model, strengthened
by excluding zero-cost items). -/
def CatBound (c : ℚ) (b : BuildInfo) : Prop :=
  (∀ i, c ≤ b.get_cost i) ∧ (∀ i, 1 ≤ b.growth i) ∧ (∀ i, 0 ≤ b.get_cps i)

/-- State-side invariant maintained by the driver: positive rate and
non-negative balance. -/
def StInv (s : ClickerState) : Prop :=
  0 < s.cps ∧ 0 ≤ s.current_cookies

/-- Termination measure, first component: remaining integer time steps. -/
def m1 (duration : ℚ) (s : ClickerState) : ℕ :=
  (⌊duration - s.current_time⌋ + 1).toNat

/-- Termination measure, second component: how many purchases of cost at
least `c` the balance can still fund. -/
def m2 (c : ℚ) (s : ClickerState) : ℕ :=
  ⌈s.current_cookies / c⌉.toNat

/-- A catalog with a zero-cost item "A". -/
def zeroCostCat : BuildInfo := ⟨["A"], fun _ => 0, fun _ => 1, fun _ => 2⟩

/-- C6: `wait(duration)` is a no-op for `duration ≤ 0`; otherwise it adds
`duration` to the elapsed time and `rate() * duration` to both the current
balance and the lifetime total, leaving rate and history unchanged. -/
theorem C6_wait_spec (s : ClickerState) (duration : ℚ) :
    (duration ≤ 0 → s.wait duration = s) ∧
    (0 < duration →
      (s.wait duration).current_time = s.current_time + duration ∧
      (s.wait duration).current_cookies = s.current_cookies + s.cps * duration ∧
      (s.wait duration).total_cookies = s.total_cookies + s.cps * duration ∧
      (s.wait duration).cps = s.cps ∧
      (s.wait duration).history = s.history) := by
  constructor
  · intro h
    simp [ClickerState.wait, h]
  · intro h
    simp [ClickerState.wait, ClickerState.get_cps, not_le.mpr h]

/-- Witness for C6 at `duration = -1` and `duration = 2` on the fresh state. -/
theorem C6_wait_spec_witness :
    ClickerState.init.wait (-1) = ClickerState.init ∧
    (ClickerState.init.wait 2).current_time = ClickerState.init.current_time + 2 ∧
    (ClickerState.init.wait 2).current_cookies =
      ClickerState.init.current_cookies + ClickerState.init.cps * 2 :=
  ⟨(C6_wait_spec ClickerState.init (-1)).1 (by norm_num),
   ((C6_wait_spec ClickerState.init 2).2 (by norm_num)).1,
   ((C6_wait_spec ClickerState.init 2).2 (by norm_num)).2.1⟩

/-- C5: `buy_item(item, cost, additional_cps)` is a no-op (state identical,
history included) when `cost > balance`; otherwise it deducts the cost,
adds `additional_cps` to the rate, and appends exactly the event
`(elapsed_time, item, cost, lifetime_total)`, leaving elapsed time and
lifetime total unchanged. -/
theorem C5_buy_item_spec (s : ClickerState) (item : String)
    (cost additional_cps : ℚ) :
    (s.current_cookies < cost → s.buy_item item cost additional_cps = s) ∧
    (cost ≤ s.current_cookies →
      (s.buy_item item cost additional_cps).current_cookies =
        s.current_cookies - cost ∧
      (s.buy_item item cost additional_cps).cps = s.cps + additional_cps ∧
      (s.buy_item item cost additional_cps).history =
        s.history ++ [⟨s.current_time, some item, cost, s.total_cookies⟩] ∧
      (s.buy_item item cost additional_cps).current_time = s.current_time ∧
      (s.buy_item item cost additional_cps).total_cookies = s.total_cookies) := by
  constructor
  · intro h
    simp [ClickerState.buy_item, ClickerState.get_cookies, h]
  · intro h
    simp [ClickerState.buy_item, ClickerState.get_cookies, ClickerState.get_time,
      not_lt.mpr h]

/-- Witness for C5: an unaffordable and an affordable purchase on the
fresh state. -/
theorem C5_buy_item_spec_witness :
    ClickerState.init.buy_item "Cursor" 7 2 = ClickerState.init ∧
    (ClickerState.init.buy_item "Cursor" 0 2).cps = ClickerState.init.cps + 2 :=
  ⟨(C5_buy_item_spec ClickerState.init "Cursor" 7 2).1 (by norm_num [ClickerState.init]),
   ((C5_buy_item_spec ClickerState.init "Cursor" 0 2).2
      (by norm_num [ClickerState.init])).2.1⟩

/-- C2: with a positive rate, `time_until(target)` returns `0` when the
target is already met, and otherwise returns
`⌈(target - balance) / rate⌉` — the smallest non-negative integer-valued
value `t` with `balance + rate * t ≥ target`. -/
theorem C2_time_until_spec (s : ClickerState) (target : ℚ) (hr : 0 < s.cps) :
    (target ≤ s.current_cookies → s.time_until target = some 0) ∧
    (s.current_cookies < target →
      ∃ t : ℚ, s.time_until target = some t ∧
        t = ((⌈(target - s.current_cookies) / s.cps⌉ : ℤ) : ℚ) ∧
        (∃ n : ℤ, t = (n : ℚ)) ∧
        0 ≤ t ∧
        target ≤ s.current_cookies + s.cps * t ∧
        (∀ u : ℚ, (∃ m : ℤ, u = (m : ℚ)) → 0 ≤ u →
          target ≤ s.current_cookies + s.cps * u → t ≤ u)) := by
  constructor
  · intro h
    simp [ClickerState.time_until, ClickerState.get_cookies, h]
  · intro h
    have hd : 0 < target - s.current_cookies := by linarith
    refine ⟨((⌈(target - s.current_cookies) / s.cps⌉ : ℤ) : ℚ), ?_, rfl, ⟨_, rfl⟩,
      ?_, ?_, ?_⟩
    · simp [ClickerState.time_until, ClickerState.get_cookies, ClickerState.get_cps,
        not_le.mpr h, ne_of_gt hr]
    · have : (0 : ℤ) < ⌈(target - s.current_cookies) / s.cps⌉ :=
        Int.ceil_pos.mpr (div_pos hd hr)
      exact_mod_cast this.le
    · have h1 : (target - s.current_cookies) / s.cps ≤
          ((⌈(target - s.current_cookies) / s.cps⌉ : ℤ) : ℚ) := Int.le_ceil _
      have h2 := (div_le_iff₀ hr).mp h1
      linarith [h2]
    · rintro u ⟨m, rfl⟩ _ hu
      have h1 : (target - s.current_cookies) / s.cps ≤ (m : ℚ) := by
        rw [div_le_iff₀ hr]
        linarith
      have h2 : ⌈(target - s.current_cookies) / s.cps⌉ ≤ m := Int.ceil_le.mpr h1
      exact_mod_cast h2

/-- Witness for C2 on a state with balance 1 and rate 2, target 6:
the returned wait is `⌈5/2⌉ = 3`. -/
theorem C2_time_until_spec_witness :
    ((⟨0, 1, 0, 2, []⟩ : ClickerState).current_cookies < 6) ∧
    ∃ t : ℚ, (⟨0, 1, 0, 2, []⟩ : ClickerState).time_until 6 = some t ∧
      t = ((⌈((6 : ℚ) - 1) / 2⌉ : ℤ) : ℚ) ∧
      (∃ n : ℤ, t = (n : ℚ)) ∧
      0 ≤ t ∧
      (6 : ℚ) ≤ 1 + 2 * t ∧
      (∀ u : ℚ, (∃ m : ℤ, u = (m : ℚ)) → 0 ≤ u → (6 : ℚ) ≤ 1 + 2 * u → t ≤ u) :=
  ⟨by norm_num,
   (C2_time_until_spec (⟨0, 1, 0, 2, []⟩ : ClickerState) 6 (by norm_num)).2
     (by norm_num)⟩

/-- C4 counterexample: with rate `-1 ≤ 0` and target `5`, `time_until`
does not fail — it returns `some (-5)` (Python: `math.ceil(5 / -1)`),
refuting "fails whenever the current rate is ≤ 0". -/
theorem C4_counterexample_neg_rate :
    negRateState.cps ≤ 0 ∧ negRateState.time_until 5 = some (-5) := by
  constructor
  · norm_num [negRateState]
  · have hc : (⌈(-5 : ℚ)⌉ : ℤ) = -5 := by
      rw [show (-5 : ℚ) = ((-5 : ℤ) : ℚ) by norm_num]
      exact Int.ceil_intCast _
    norm_num [ClickerState.time_until, negRateState, ClickerState.get_cookies,
      ClickerState.get_cps, hc]

/-- C4 amended: `time_until` fails (the `ZeroDivisionError` of the Python
division, modelled as `none`) exactly when the rate is `0` and the target
exceeds the balance; in every other case — including negative rates — it
returns normally, and for positive rate it never fails. -/
theorem C4_time_until_raise_iff (s : ClickerState) (target : ℚ) :
    s.time_until target = none ↔ (s.cps = 0 ∧ s.current_cookies < target) := by
  unfold ClickerState.time_until ClickerState.get_cookies ClickerState.get_cps
  by_cases h : target ≤ s.current_cookies
  · simp [h, not_lt.mpr h]
  · by_cases hz : s.cps = 0
    · simp [h, hz, not_le.mp h]
    · simp [h, hz]

/-- C10: a fresh `ClickerState` has time 0, balance 0, lifetime total 0,
history exactly `[(0.0, None, 0.0, 0.0)]` and rate 1 (not 0); hence a
`simulate_clicker` run with an always-stop strategy and horizon `H ≥ 0`
ends with balance and lifetime total `1 * H`. -/
theorem C10_init_and_stop_run (b : BuildInfo) (strategy : Strategy) (H : ℚ)
    (hstop : ∀ ck cp hs tl bi, strategy ck cp hs tl bi = none) (hH : 0 ≤ H) :
    ClickerState.init.current_time = 0 ∧
    ClickerState.init.current_cookies = 0 ∧
    ClickerState.init.total_cookies = 0 ∧
    ClickerState.init.history = [⟨0, none, 0, 0⟩] ∧
    ClickerState.init.cps = 1 ∧
    ∃ s, simulate_clicker 1 b H strategy = some (.ok s b) ∧
      s.current_cookies = 1 * H ∧ s.total_cookies = 1 * H := by
  refine ⟨rfl, rfl, rfl, rfl, rfl, ?_⟩
  have hstep : phase1Step H strategy ClickerState.init b = .exit := by
    simp [phase1Step, ClickerState.get_time, ClickerState.init, not_lt.mpr hH, hstop]
  have hrun : runPhase1 H strategy 1 ClickerState.init b.clone =
      some (.ok ClickerState.init b) := by
    simp [runPhase1, BuildInfo.clone, hstep]
  have hsweep : ∀ s, runSweep H strategy 1 s b = some s := by
    intro s
    simp [runSweep, sweepStep, hstop]
  have hsim : simulate_clicker 1 b H strategy =
      some (.ok (ClickerState.init.wait (H - ClickerState.init.get_time)) b) := by
    simp [simulate_clicker, hrun, hsweep]
  refine ⟨_, hsim, ?_, ?_⟩ <;>
  · rcases eq_or_lt_of_le hH with h0 | h0
    · simp [ClickerState.wait, ClickerState.init, ClickerState.get_time, ← h0]
    · simp [ClickerState.wait, ClickerState.init, ClickerState.get_time,
        ClickerState.get_cps, not_le.mpr h0]

/-- Witness for C10: horizon 3, always-stop strategy, empty catalog. -/
theorem C10_init_and_stop_run_witness :
    ClickerState.init.current_time = 0 ∧
    ClickerState.init.current_cookies = 0 ∧
    ClickerState.init.total_cookies = 0 ∧
    ClickerState.init.history = [⟨0, none, 0, 0⟩] ∧
    ClickerState.init.cps = 1 ∧
    ∃ s, simulate_clicker 1 ⟨[], fun _ => 0, fun _ => 0, fun _ => 1⟩ 3
        (fun _ _ _ _ _ => none) = some (.ok s ⟨[], fun _ => 0, fun _ => 0, fun _ => 1⟩) ∧
      s.current_cookies = 1 * 3 ∧ s.total_cookies = 1 * 3 :=
  C10_init_and_stop_run ⟨[], fun _ => 0, fun _ => 0, fun _ => 1⟩
    (fun _ _ _ _ _ => none) 3 (fun _ _ _ _ _ => rfl) (by norm_num)

lemma histInv_init : histInv ClickerState.init := by
  refine ⟨?_, ?_, rfl⟩
  · simp [ClickerState.init]
  · intro e he
    simp [ClickerState.init] at he
    simp [he, ClickerState.init]

lemma histInv_applyOp (s : ClickerState) (op : Op) (h : histInv s) :
    histInv (applyOp s op) := by
  obtain ⟨hch, hle, hhd⟩ := h
  cases op with
  | wait t =>
    simp only [applyOp, ClickerState.wait]
    split
    · exact ⟨hch, hle, hhd⟩
    · rename_i ht
      refine ⟨hch, ?_, hhd⟩
      intro e he
      have h1 := hle e he
      have h2 : 0 < t := not_le.mp ht
      simpa using le_trans h1 (by linarith)
  | buy i c a =>
    simp only [applyOp, ClickerState.buy_item]
    split
    · exact ⟨hch, hle, hhd⟩
    · refine ⟨?_, ?_, ?_⟩
      · rw [List.chain'_append]
        refine ⟨hch, List.chain'_singleton _, ?_⟩
        intro x hx y hy
        simp only [List.head?_cons, Option.mem_def, Option.some.injEq] at hy
        obtain ⟨hnil, rfl⟩ := List.mem_getLast?_eq_getLast hx
        rw [← hy]
        exact hle _ (List.getLast_mem hnil)
      · intro e he
        rcases List.mem_append.mp he with h1 | h1
        · exact hle e h1
        · simp only [List.mem_singleton] at h1
          simp [h1, ClickerState.get_time]
      · cases hhist : s.history with
        | nil => rw [hhist] at hhd; simp at hhd
        | cons e l =>
          rw [hhist] at hhd
          simp only [List.head?_cons, Option.some.injEq] at hhd
          simp [hhist, hhd]

lemma histInv_foldl :
    ∀ (ops : List Op) (s : ClickerState), histInv s →
      histInv (ops.foldl applyOp s)
  | [], _, h => h
  | op :: ops, s, h => histInv_foldl ops _ (histInv_applyOp s op h)

/-- C7: in every state reachable from the fresh state by `wait` and
`buy_item` calls, the history is ordered by non-decreasing time and its
first element is the initial sentinel `(0.0, None, 0.0, 0.0)`. -/
theorem C7_history_sorted_and_sentinel (ops : List Op) :
    ((runOps ops).history.Chain' fun a b => a.time ≤ b.time) ∧
    (runOps ops).history.head? = some ⟨0, none, 0, 0⟩ :=
  ⟨(histInv_foldl ops _ histInv_init).1, (histInv_foldl ops _ histInv_init).2.2⟩

lemma histCost_append (l : List HistEvent) (e : HistEvent) :
    histCost (l ++ [e]) = histCost l + e.cost := by
  simp [histCost]

lemma total_eq_applyOp (s : ClickerState) (op : Op)
    (h : s.total_cookies = s.current_cookies + histCost s.history) :
    (applyOp s op).total_cookies =
      (applyOp s op).current_cookies + histCost (applyOp s op).history := by
  cases op with
  | wait t =>
    simp only [applyOp, ClickerState.wait]
    split
    · exact h
    · simp only
      linarith
  | buy i c a =>
    simp only [applyOp, ClickerState.buy_item]
    split
    · exact h
    · simp only [histCost_append]
      linarith

lemma total_eq_foldl :
    ∀ (ops : List Op) (s : ClickerState),
      s.total_cookies = s.current_cookies + histCost s.history →
      (ops.foldl applyOp s).total_cookies =
        (ops.foldl applyOp s).current_cookies +
          histCost (ops.foldl applyOp s).history
  | [], _, h => h
  | op :: ops, s, h => total_eq_foldl ops _ (total_eq_applyOp s op h)

lemma balInv_applyOp (s : ClickerState) (op : Op) (hg : goodOp op)
    (h : balInv s) : balInv (applyOp s op) := by
  obtain ⟨h1, h2⟩ := h
  cases op with
  | wait t =>
    simp only [applyOp, ClickerState.wait]
    split
    · exact ⟨h1, h2⟩
    · exact ⟨h1, by simp only [ClickerState.get_cps]; linarith⟩
  | buy i c a =>
    obtain ⟨hc, ha⟩ := hg
    simp only [applyOp, ClickerState.buy_item]
    split
    · exact ⟨h1, h2⟩
    · exact ⟨by simp only; linarith, by simp only; linarith⟩

lemma total_mono_applyOp (s : ClickerState) (op : Op) (hg : goodOp op)
    (h : balInv s) : s.total_cookies ≤ (applyOp s op).total_cookies := by
  obtain ⟨h1, _⟩ := h
  cases op with
  | wait t =>
    simp only [applyOp, ClickerState.wait]
    split
    · exact le_refl _
    · rename_i ht
      have : 0 < t := not_le.mp ht
      simp only [ClickerState.get_cps]
      nlinarith
  | buy i c a =>
    simp only [applyOp, ClickerState.buy_item]
    split
    · exact le_refl _
    · exact le_refl _

lemma balInv_foldl :
    ∀ (ops : List Op) (s : ClickerState), (∀ op ∈ ops, goodOp op) →
      balInv s → balInv (ops.foldl applyOp s)
  | [], _, _, h => h
  | op :: ops, s, hg, h =>
    balInv_foldl ops _ (fun o ho => hg o (List.mem_cons_of_mem _ ho))
      (balInv_applyOp s op (hg op (List.mem_cons_self op ops)) h)

lemma total_mono_foldl :
    ∀ (ops : List Op) (s : ClickerState), (∀ op ∈ ops, goodOp op) →
      balInv s → s.total_cookies ≤ (ops.foldl applyOp s).total_cookies
  | [], _, _, _ => le_refl _
  | op :: ops, s, hg, h =>
    le_trans (total_mono_applyOp s op (hg op (List.mem_cons_self op ops)) h)
      (total_mono_foldl ops _ (fun o ho => hg o (List.mem_cons_of_mem _ ho))
        (balInv_applyOp s op (hg op (List.mem_cons_self op ops)) h))

/-- C8 counterexample: `buy_item` accepts a negative cost (`-1 > 0` fails),
so one reachable step makes the lifetime total (0) smaller than the
balance (1), refuting "lifetime total ≥ current balance for every state
reachable by any sequence of wait and buy_item operations". -/
theorem C8_counterexample_negative_cost :
    (runOps [Op.buy "x" (-1) 0]).total_cookies <
      (runOps [Op.buy "x" (-1) 0]).current_cookies := by
  norm_num [runOps, applyOp, ClickerState.buy_item, ClickerState.get_cookies,
    ClickerState.init]

/-- C8 amended: along any sequence of `wait` and `buy_item` calls whose
purchases all carry non-negative cost and non-negative rate increase, the
lifetime total equals the balance plus the sum of all recorded purchase
costs, is at least the balance, and never decreases as further such
operations are applied. -/
theorem C8_lifetime_total_spec (ops more : List Op)
    (hg : ∀ op ∈ ops ++ more, goodOp op) :
    (runOps ops).total_cookies =
      (runOps ops).current_cookies + histCost (runOps ops).history ∧
    (runOps ops).current_cookies ≤ (runOps ops).total_cookies ∧
    (runOps ops).total_cookies ≤ (runOps (ops ++ more)).total_cookies := by
  have hg1 : ∀ op ∈ ops, goodOp op :=
    fun op h => hg op (List.mem_append.mpr (Or.inl h))
  have hg2 : ∀ op ∈ more, goodOp op :=
    fun op h => hg op (List.mem_append.mpr (Or.inr h))
  have hinit : balInv ClickerState.init := by
    constructor <;> norm_num [ClickerState.init]
  have heq0 : ClickerState.init.total_cookies =
      ClickerState.init.current_cookies + histCost ClickerState.init.history := by
    norm_num [ClickerState.init, histCost]
  refine ⟨total_eq_foldl ops _ heq0, (balInv_foldl ops _ hg1 hinit).2, ?_⟩
  have hsplit : runOps (ops ++ more) = more.foldl applyOp (runOps ops) := by
    simp [runOps, List.foldl_append]
  rw [hsplit]
  exact total_mono_foldl more _ hg2 (balInv_foldl ops _ hg1 hinit)

/-- Witness for C8 on the sequence wait 5, buy (cost 3, +2 cps), then a
further wait 2. -/
theorem C8_lifetime_total_spec_witness :
    (runOps [Op.wait 5, Op.buy "A" 3 2]).total_cookies =
      (runOps [Op.wait 5, Op.buy "A" 3 2]).current_cookies +
        histCost (runOps [Op.wait 5, Op.buy "A" 3 2]).history ∧
    (runOps [Op.wait 5, Op.buy "A" 3 2]).current_cookies ≤
      (runOps [Op.wait 5, Op.buy "A" 3 2]).total_cookies ∧
    (runOps [Op.wait 5, Op.buy "A" 3 2]).total_cookies ≤
      (runOps ([Op.wait 5, Op.buy "A" 3 2] ++ [Op.wait 2])).total_cookies :=
  C8_lifetime_total_spec [Op.wait 5, Op.buy "A" 3 2] [Op.wait 2]
    (by
      intro op h
      simp only [List.mem_append, List.mem_cons, List.mem_singleton,
        List.not_mem_nil, or_false] at h
      rcases h with (rfl | rfl) | rfl <;> norm_num [goodOp])

lemma runPhase1_succ (duration : ℚ) (strategy : Strategy) (fuel : ℕ)
    (s : ClickerState) (b : BuildInfo) :
    runPhase1 duration strategy (fuel + 1) s b =
      match phase1Step duration strategy s b with
      | .exit => some (.ok s b)
      | .err => some .err
      | .cont s' b' => runPhase1 duration strategy fuel s' b' := rfl

lemma runSweep_succ (duration : ℚ) (strategy : Strategy) (fuel : ℕ)
    (s : ClickerState) (b : BuildInfo) :
    runSweep duration strategy (fuel + 1) s b =
      match sweepStep duration strategy s b with
      | none => some s
      | some s' => runSweep duration strategy fuel s' b := rfl

lemma runSweep_buy {duration : ℚ} {strategy : Strategy} {s s' : ClickerState}
    {b : BuildInfo} (h : sweepStep duration strategy s b = some s') (fuel : ℕ) :
    runSweep duration strategy (fuel + 1) s b =
      runSweep duration strategy fuel s' b := by
  rw [runSweep_succ, h]

lemma runSweep_stop {duration : ℚ} {strategy : Strategy} {s : ClickerState}
    {b : BuildInfo} (h : sweepStep duration strategy s b = none) (fuel : ℕ) :
    runSweep duration strategy (fuel + 1) s b = some s := by
  rw [runSweep_succ, h]

/-- C3 (code-bug evidence): with balance 100, rate 1 and no time left,
item "A" (cost 50) is affordable by the claimed bound
`balance + rate * time_remaining = 100`, yet `strategy_cheap` returns the
stop signal, because the code screens against `time_left / cps = 0`
instead of `cookies + cps * time_left`. -/
theorem C3_strategy_cheap_bug :
    strategy_cheap 100 1 [] 0 catC3 = none ∧
    catC3.get_cost "A" ≤ 100 + 1 * 0 := by
  constructor
  · norm_num [strategy_cheap, catC3, cheapest]
  · norm_num [catC3]

lemma update_iter_growth (b : BuildInfo) (item : String) :
    ∀ n : ℕ, (b.update_iter item n).growth = b.growth
  | 0 => rfl
  | n + 1 => by
    simp [BuildInfo.update_iter, BuildInfo.update_item, update_iter_growth b item n]

/-- Closed form for the stored cost after `n` updates of one item. -/
lemma update_iter_get_cost (b : BuildInfo) (item : String) :
    ∀ n : ℕ, (b.update_iter item n).get_cost item =
      b.get_cost item * b.growth item ^ n
  | 0 => by simp [BuildInfo.update_iter]
  | n + 1 => by
    simp [BuildInfo.update_iter, BuildInfo.update_item, update_iter_growth b item n,
      update_iter_get_cost b item n]
    ring

/-- C9 counterexample: on `catC9` with horizon 2 the driver executes two
purchases of "A", both in the terminal sweep (the two non-sentinel history
events), yet the working catalog still holds the base cost 1 — the sweep
never applies the growth rule, refuting "every purchase executed by the
driver (in either phase) strictly increases that item's stored cost". -/
theorem C9_counterexample_sweep_keeps_cost :
    obsA (simulate_clicker 5 catC9 2 stratC9) =
      some ([⟨0, none, 0, 0⟩, ⟨2, some "A", 1, 2⟩, ⟨2, some "A", 1, 2⟩], 1) ∧
    catC9.get_cost "A" = 1 := by
  have hstep1 : phase1Step 2 stratC9 ClickerState.init catC9 = .exit := by
    norm_num [phase1Step, stratC9, ClickerState.init, ClickerState.get_time,
      ClickerState.get_cookies, ClickerState.get_cps, ClickerState.get_history]
  have hp1 : runPhase1 2 stratC9 5 ClickerState.init catC9 =
      some (.ok ClickerState.init catC9) := by
    rw [show (5 : ℕ) = 4 + 1 from rfl, runPhase1_succ, hstep1]
  have hs2 : ClickerState.init.wait (2 - ClickerState.init.get_time) =
      ⟨2, 2, 2, 1, [⟨0, none, 0, 0⟩]⟩ := by
    norm_num [ClickerState.wait, ClickerState.init, ClickerState.get_time,
      ClickerState.get_cps]
  have hd1 : sweepStep 2 stratC9 ⟨2, 2, 2, 1, [⟨0, none, 0, 0⟩]⟩ catC9 =
      some ⟨2, 1, 2, 2, [⟨0, none, 0, 0⟩, ⟨2, some "A", 1, 2⟩]⟩ := by
    norm_num [sweepStep, stratC9, catC9, ClickerState.buy_item,
      ClickerState.get_cookies, ClickerState.get_time, ClickerState.get_cps,
      ClickerState.get_history]
  have hd2 : sweepStep 2 stratC9
      ⟨2, 1, 2, 2, [⟨0, none, 0, 0⟩, ⟨2, some "A", 1, 2⟩]⟩ catC9 =
      some ⟨2, 0, 2, 3, [⟨0, none, 0, 0⟩, ⟨2, some "A", 1, 2⟩,
        ⟨2, some "A", 1, 2⟩]⟩ := by
    norm_num [sweepStep, stratC9, catC9, ClickerState.buy_item,
      ClickerState.get_cookies, ClickerState.get_time, ClickerState.get_cps,
      ClickerState.get_history]
  have hd3 : sweepStep 2 stratC9 ⟨2, 0, 2, 3, [⟨0, none, 0, 0⟩,
      ⟨2, some "A", 1, 2⟩, ⟨2, some "A", 1, 2⟩]⟩ catC9 = none := by
    norm_num [sweepStep, stratC9, catC9, ClickerState.get_cookies,
      ClickerState.get_time, ClickerState.get_cps, ClickerState.get_history]
  have hsw : runSweep 2 stratC9 5 ⟨2, 2, 2, 1, [⟨0, none, 0, 0⟩]⟩ catC9 =
      some ⟨2, 0, 2, 3, [⟨0, none, 0, 0⟩, ⟨2, some "A", 1, 2⟩,
        ⟨2, some "A", 1, 2⟩]⟩ := by
    rw [show (5 : ℕ) = 4 + 1 from rfl, runSweep_buy hd1]
    rw [show (4 : ℕ) = 3 + 1 from rfl, runSweep_buy hd2]
    rw [show (3 : ℕ) = 2 + 1 from rfl, runSweep_stop hd3]
  have hsim : simulate_clicker 5 catC9 2 stratC9 =
      some (.ok ⟨2, 0, 2, 3, [⟨0, none, 0, 0⟩, ⟨2, some "A", 1, 2⟩,
        ⟨2, some "A", 1, 2⟩]⟩ catC9) := by
    simp only [simulate_clicker, BuildInfo.clone, hp1, hs2, hsw]
  rw [hsim]
  exact ⟨rfl, rfl⟩

/-- C9 amended: when an iteration of the purchase-and-wait phase executes
a purchase (the `.cont` outcome), the rate strictly increases by exactly
the item's stated contribution, and the item's stored cost in the working
catalog is multiplied by its growth factor — hence strictly increases, and
after `n` consecutive purchases of one item equals the closed form
`C0 * G^n`.  (Terminal-sweep purchases, by contrast, leave the working
catalog unchanged — see the counterexample.) -/
theorem C9_purchase_growth_spec (d : ℚ) (strategy : Strategy)
    (s s' : ClickerState) (b b' : BuildInfo) (item : String)
    (hstrat : strategy s.get_cookies s.get_cps s.get_history (d - s.get_time) b =
      some item)
    (hstep : phase1Step d strategy s b = .cont s' b')
    (hcps : 0 < s.cps)
    (hicps : 0 < b.get_cps item) (hicost : 0 < b.get_cost item)
    (higrow : 1 < b.growth item) :
    (s'.cps = s.cps + b.get_cps item ∧ s.cps < s'.cps) ∧
    (b'.get_cost item = b.get_cost item * b.growth item ∧
      b.get_cost item < b'.get_cost item) ∧
    (∀ n : ℕ, (b.update_iter item n).get_cost item =
      b.get_cost item * b.growth item ^ n) := by
  unfold phase1Step at hstep
  by_cases hd : d < s.get_time
  · rw [if_pos hd] at hstep
    exact absurd hstep (by simp)
  · rw [if_neg hd, hstrat] at hstep
    dsimp only at hstep
    by_cases hafford : b.get_cost item ≤ s.get_cookies
    · rw [show s.time_until (b.get_cost item) = some 0 from by
        simp [ClickerState.time_until, hafford]] at hstep
      simp only [add_zero] at hstep
      by_cases hdw : d < s.get_time
      · exact absurd hdw hd
      · rw [if_neg hdw] at hstep
        simp only [if_true] at hstep
        obtain ⟨h1, h2⟩ := Phase1Res.cont.inj hstep
        subst h1
        subst h2
        refine ⟨?_, ?_, update_iter_get_cost b item⟩
        · constructor
          · simp [ClickerState.buy_item, not_lt.mpr hafford]
          · simp [ClickerState.buy_item, not_lt.mpr hafford]
            linarith
        · constructor
          · simp [BuildInfo.update_item]
          · simp [BuildInfo.update_item]
            nlinarith
    · have hcps0 : s.get_cps ≠ 0 := by
        simp only [ClickerState.get_cps]
        exact ne_of_gt hcps
      rw [show s.time_until (b.get_cost item) = some
          ((⌈(b.get_cost item - s.get_cookies) / s.get_cps⌉ : ℤ) : ℚ) from by
        simp [ClickerState.time_until, hafford, hcps0]] at hstep
      set n : ℤ := ⌈(b.get_cost item - s.get_cookies) / s.get_cps⌉ with hn
      dsimp only at hstep
      have hl : s.get_cookies < b.get_cost item := not_le.mp hafford
      have hn1 : 1 ≤ n := by
        rw [hn]
        have : (0 : ℤ) < ⌈(b.get_cost item - s.get_cookies) / s.get_cps⌉ :=
          Int.ceil_pos.mpr (div_pos (by simp only [sub_pos]; exact hl)
            (by simpa [ClickerState.get_cps] using hcps))
        omega
      have hw0 : ((n : ℤ) : ℚ) ≠ 0 := by
        have : (1 : ℚ) ≤ ((n : ℤ) : ℚ) := by exact_mod_cast hn1
        linarith
      by_cases hdw : d < s.get_time + ((n : ℤ) : ℚ)
      · rw [if_pos hdw] at hstep
        exact absurd hstep (by simp)
      · rw [if_neg hdw, if_neg hw0] at hstep
        obtain ⟨h1, h2⟩ := Phase1Res.cont.inj hstep
        subst h1
        subst h2
        have hwpos : ¬ ((n : ℤ) : ℚ) ≤ 0 := by
          have : (1 : ℚ) ≤ ((n : ℤ) : ℚ) := by exact_mod_cast hn1
          linarith
        have hreach : b.get_cost item ≤
            s.get_cookies + s.get_cps * ((n : ℤ) : ℚ) := by
          have hceil : (b.get_cost item - s.get_cookies) / s.get_cps ≤
              ((n : ℤ) : ℚ) := by
            rw [hn]
            exact Int.le_ceil _
          have := (div_le_iff₀ (show (0 : ℚ) < s.get_cps from by
            simpa [ClickerState.get_cps] using hcps)).mp hceil
          linarith
        have hwc : (s.wait ((n : ℤ) : ℚ)).get_cookies =
            s.get_cookies + s.get_cps * ((n : ℤ) : ℚ) := by
          simp [ClickerState.wait, ClickerState.get_cookies, hwpos,
            ClickerState.get_cps]
        have hwcps : (s.wait ((n : ℤ) : ℚ)).cps = s.cps := by
          simp [ClickerState.wait, hwpos]
        refine ⟨?_, ?_, update_iter_get_cost b item⟩
        · constructor
          · rw [show ∀ t : ClickerState, (t.buy_item item (b.get_cost item)
              (b.get_cps item)).cps = if t.get_cookies < b.get_cost item
                then t.cps else t.cps + b.get_cps item from fun t => by
                  by_cases hb : t.get_cookies < b.get_cost item <;>
                    simp [ClickerState.buy_item, hb]]
            rw [if_neg (not_lt.mpr (hwc ▸ hreach)), hwcps]
          · have hb : ¬ (s.wait ((n : ℤ) : ℚ)).get_cookies < b.get_cost item := by
              rw [hwc]
              exact not_lt.mpr hreach
            simp [ClickerState.buy_item, hb, hwcps]
            linarith
        · constructor
          · simp [BuildInfo.update_item]
          · simp [BuildInfo.update_item]
            nlinarith

/-- Witness for C9 amended: one phase-1 purchase of "A" from `s0W`. -/
theorem C9_purchase_growth_spec_witness :
    ((s0W.buy_item "A" 2 1).cps = s0W.cps + catW.get_cps "A" ∧
      s0W.cps < (s0W.buy_item "A" 2 1).cps) ∧
    ((catW.update_item "A").get_cost "A" = catW.get_cost "A" * catW.growth "A" ∧
      catW.get_cost "A" < (catW.update_item "A").get_cost "A") ∧
    (∀ n : ℕ, (catW.update_iter "A" n).get_cost "A" =
      catW.get_cost "A" * catW.growth "A" ^ n) :=
  C9_purchase_growth_spec 10 stratW s0W (s0W.buy_item "A" 2 1) catW
    (catW.update_item "A") "A" rfl
    (by norm_num [phase1Step, stratW, s0W, catW, ClickerState.time_until,
      ClickerState.get_cookies, ClickerState.get_time, ClickerState.get_cps,
      ClickerState.get_history])
    (by norm_num [s0W]) (by norm_num [catW]) (by norm_num [catW])
    (by norm_num [catW])

lemma catBound_update {c : ℚ} {b : BuildInfo} (hc : 0 < c) (h : CatBound c b)
    (item : String) : CatBound c (b.update_item item) := by
  obtain ⟨h1, h2, h3⟩ := h
  refine ⟨?_, h2, h3⟩
  intro j
  simp only [BuildInfo.update_item]
  split
  · calc c ≤ b.get_cost item := h1 item
      _ ≤ b.get_cost item * b.growth item :=
        le_mul_of_one_le_right (le_of_lt (lt_of_lt_of_le hc (h1 item))) (h2 item)
  · exact h1 j

lemma m1_dec {d t : ℚ} {n : ℤ} (hn : 1 ≤ n) (hle : t + (n : ℚ) ≤ d) :
    (⌊d - (t + (n : ℚ))⌋ + 1).toNat < (⌊d - t⌋ + 1).toNat := by
  have h1 : d - (t + (n : ℚ)) = (d - t) - (n : ℚ) := by ring
  have h2 : ⌊(d - t) - ((n : ℤ) : ℚ)⌋ = ⌊d - t⌋ - n := Int.floor_sub_int (d - t) n
  have h3 : ((n : ℤ) : ℚ) ≤ d - t := by linarith
  have h4 : n ≤ ⌊d - t⌋ := Int.le_floor.mpr h3
  rw [h1, h2]
  exact (Int.toNat_lt_toNat (by omega)).mpr (by omega)

lemma m2_dec {c ck cost : ℚ} (hc : 0 < c) (hcost : c ≤ cost) (hck : cost ≤ ck) :
    (⌈(ck - cost) / c⌉).toNat < (⌈ck / c⌉).toNat := by
  have hmul : (1 : ℚ) ≤ cost / c := (le_div_iff₀ hc).mpr (by linarith)
  have h1 : (ck - cost) / c ≤ ck / c - 1 := by
    rw [sub_div]
    linarith
  have h2 : ⌈(ck - cost) / c⌉ ≤ ⌈ck / c⌉ - 1 := by
    have := Int.ceil_mono h1
    rwa [Int.ceil_sub_one] at this
  have h3 : (1 : ℤ) ≤ ⌈ck / c⌉ := by
    have hx : (1 : ℚ) ≤ ck / c := (le_div_iff₀ hc).mpr (by linarith)
    have := le_trans hx (Int.le_ceil (ck / c))
    exact_mod_cast this
  exact (Int.toNat_lt_toNat (by omega)).mpr (by omega)

lemma phase1Step_cases (d : ℚ) (strategy : Strategy) (s : ClickerState)
    (b : BuildInfo) (c : ℚ) (hc : 0 < c) (hcat : CatBound c b) (hst : StInv s) :
    phase1Step d strategy s b = .exit ∨
    ∃ s' b', phase1Step d strategy s b = .cont s' b' ∧ StInv s' ∧
      CatBound c b' ∧
      (m1 d s' < m1 d s ∨ (m1 d s' = m1 d s ∧ m2 c s' < m2 c s)) := by
  obtain ⟨hcps, hck⟩ := hst
  unfold phase1Step
  by_cases hd : d < s.get_time
  · rw [if_pos hd]
    exact Or.inl rfl
  · rw [if_neg hd]
    cases hstrat : strategy s.get_cookies s.get_cps s.get_history (d - s.get_time) b with
    | none => exact Or.inl rfl
    | some item =>
      dsimp only
      by_cases hafford : b.get_cost item ≤ s.get_cookies
      · rw [show s.time_until (b.get_cost item) = some 0 from by
          simp [ClickerState.time_until, hafford]]
        dsimp only
        by_cases hdw : d < s.get_time + 0
        · rw [if_pos hdw]
          exact Or.inl rfl
        · rw [if_neg hdw, if_pos rfl]
          refine Or.inr ⟨_, _, rfl, ?_, catBound_update hc hcat item, Or.inr ⟨?_, ?_⟩⟩
          · constructor
            · simp only [ClickerState.buy_item]
              rw [if_neg (not_lt.mpr hafford)]
              have := hcat.2.2 item
              simp only
              linarith
            · simp only [ClickerState.buy_item]
              rw [if_neg (not_lt.mpr hafford)]
              simp only [ClickerState.get_cookies] at hafford
              simp only
              linarith
          · unfold m1
            simp only [ClickerState.buy_item]
            rw [if_neg (not_lt.mpr hafford)]
          · unfold m2
            simp only [ClickerState.buy_item]
            rw [if_neg (not_lt.mpr hafford)]
            simp only [ClickerState.get_cookies] at hafford
            exact m2_dec hc (hcat.1 item) hafford
      · have hcps0 : s.get_cps ≠ 0 := by
          simp only [ClickerState.get_cps]
          exact ne_of_gt hcps
        rw [show s.time_until (b.get_cost item) = some
            ((⌈(b.get_cost item - s.get_cookies) / s.get_cps⌉ : ℤ) : ℚ) from by
          simp [ClickerState.time_until, hafford, hcps0]]
        dsimp only
        set n : ℤ := ⌈(b.get_cost item - s.get_cookies) / s.get_cps⌉ with hn
        have hl : s.get_cookies < b.get_cost item := not_le.mp hafford
        have hn1 : 1 ≤ n := by
          rw [hn]
          have : (0 : ℤ) < ⌈(b.get_cost item - s.get_cookies) / s.get_cps⌉ :=
            Int.ceil_pos.mpr (div_pos (by simp only [sub_pos]; exact hl)
              (by simpa [ClickerState.get_cps] using hcps))
          omega
        have hnq : (1 : ℚ) ≤ ((n : ℤ) : ℚ) := by exact_mod_cast hn1
        by_cases hdw : d < s.get_time + ((n : ℤ) : ℚ)
        · rw [if_pos hdw]
          exact Or.inl rfl
        · rw [if_neg hdw, if_neg (by linarith : ((n : ℤ) : ℚ) ≠ 0)]
          have hwpos : ¬ ((n : ℤ) : ℚ) ≤ 0 := by linarith
          have hreach : b.get_cost item ≤
              s.get_cookies + s.get_cps * ((n : ℤ) : ℚ) := by
            have hceil : (b.get_cost item - s.get_cookies) / s.get_cps ≤
                ((n : ℤ) : ℚ) := by
              rw [hn]
              exact Int.le_ceil _
            have := (div_le_iff₀ (show (0 : ℚ) < s.get_cps from by
              simpa [ClickerState.get_cps] using hcps)).mp hceil
            linarith
          have hwc : (s.wait ((n : ℤ) : ℚ)).current_cookies =
              s.current_cookies + s.cps * ((n : ℤ) : ℚ) := by
            simp [ClickerState.wait, hwpos, ClickerState.get_cps]
          have hwt : (s.wait ((n : ℤ) : ℚ)).current_time =
              s.current_time + ((n : ℤ) : ℚ) := by
            simp [ClickerState.wait, hwpos]
          have hwcps : (s.wait ((n : ℤ) : ℚ)).cps = s.cps := by
            simp [ClickerState.wait, hwpos]
          have hbuy : ¬ (s.wait ((n : ℤ) : ℚ)).get_cookies < b.get_cost item := by
            simp only [ClickerState.get_cookies, hwc]
            simp only [ClickerState.get_cookies, ClickerState.get_cps] at hreach
            exact not_lt.mpr hreach
          refine Or.inr ⟨_, _, rfl, ?_, catBound_update hc hcat item, Or.inl ?_⟩
          · constructor
            · simp only [ClickerState.buy_item]
              rw [if_neg hbuy]
              have := hcat.2.2 item
              simp only [hwcps]
              linarith
            · simp only [ClickerState.buy_item]
              rw [if_neg hbuy]
              simp only [hwc]
              simp only [ClickerState.get_cookies, ClickerState.get_cps] at hreach
              linarith
          · unfold m1
            simp only [ClickerState.buy_item]
            rw [if_neg hbuy]
            simp only [hwt]
            have hle : s.current_time + ((n : ℤ) : ℚ) ≤ d := by
              simpa [ClickerState.get_time] using not_lt.mp hdw
            exact m1_dec hn1 hle

lemma runPhase1_terminates (d : ℚ) (strategy : Strategy) (c : ℚ) (hc : 0 < c) :
    ∀ (a bn : ℕ) (s : ClickerState) (b : BuildInfo), StInv s → CatBound c b →
      m1 d s = a → m2 c s = bn →
      ∃ fuel s1 b1, runPhase1 d strategy fuel s b = some (.ok s1 b1) ∧
        StInv s1 ∧ CatBound c b1 := by
  intro a
  induction a using Nat.strong_induction_on with
  | _ a ihA =>
    intro bn
    induction bn using Nat.strong_induction_on with
    | _ bn ihB =>
      intro s b hs hb hma hmb
      rcases phase1Step_cases d strategy s b c hc hb hs with hexit |
        ⟨s', b', hstep, hs', hb', hdec⟩
      · refine ⟨1, s, b, ?_, hs, hb⟩
        rw [show (1 : ℕ) = 0 + 1 from rfl, runPhase1_succ, hexit]
      · rcases hdec with h1 | ⟨h1, h2⟩
        · obtain ⟨fuel, s1, b1, hf, hs1, hb1⟩ :=
            ihA (m1 d s') (by rw [← hma]; exact h1) (m2 c s') s' b' hs' hb' rfl rfl
          refine ⟨fuel + 1, s1, b1, ?_, hs1, hb1⟩
          rw [runPhase1_succ, hstep]
          exact hf
        · obtain ⟨fuel, s1, b1, hf, hs1, hb1⟩ :=
            ihB (m2 c s') (by rw [← hmb]; exact h2) s' b' hs' hb'
              (by rw [← hma]; exact h1) rfl
          refine ⟨fuel + 1, s1, b1, ?_, hs1, hb1⟩
          rw [runPhase1_succ, hstep]
          exact hf

lemma sweepStep_cases (d : ℚ) (strategy : Strategy) (s : ClickerState)
    (b : BuildInfo) (c : ℚ) (hc : 0 < c) (hcost : ∀ i, c ≤ b.get_cost i)
    (hck : 0 ≤ s.current_cookies) :
    sweepStep d strategy s b = none ∨
    ∃ s', sweepStep d strategy s b = some s' ∧ 0 ≤ s'.current_cookies ∧
      m2 c s' < m2 c s := by
  unfold sweepStep
  cases hstrat : strategy s.get_cookies s.get_cps s.get_history (d - s.get_time) b with
  | none => exact Or.inl rfl
  | some item =>
    dsimp only
    by_cases hb2 : b.get_cost item ≤ s.get_cookies
    · rw [if_pos hb2]
      simp only [ClickerState.get_cookies] at hb2
      refine Or.inr ⟨_, rfl, ?_, ?_⟩
      · simp only [ClickerState.buy_item]
        rw [if_neg (not_lt.mpr (by simpa [ClickerState.get_cookies] using hb2))]
        simp only
        linarith
      · unfold m2
        simp only [ClickerState.buy_item]
        rw [if_neg (not_lt.mpr (by simpa [ClickerState.get_cookies] using hb2))]
        exact m2_dec hc (hcost item) hb2
    · rw [if_neg hb2]
      exact Or.inl rfl

lemma runSweep_terminates (d : ℚ) (strategy : Strategy) (c : ℚ) (hc : 0 < c)
    (b : BuildInfo) (hcost : ∀ i, c ≤ b.get_cost i) :
    ∀ (bn : ℕ) (s : ClickerState), 0 ≤ s.current_cookies → m2 c s = bn →
      ∃ fuel s1, runSweep d strategy fuel s b = some s1 := by
  intro bn
  induction bn using Nat.strong_induction_on with
  | _ bn ih =>
    intro s hck hm
    rcases sweepStep_cases d strategy s b c hc hcost hck with hnone |
      ⟨s', hsome, hck', hdec⟩
    · exact ⟨1, s, by rw [show (1 : ℕ) = 0 + 1 from rfl, runSweep_stop hnone]⟩
    · obtain ⟨fuel, s1, hf⟩ := ih (m2 c s') (by rw [← hm]; exact hdec) s' hck' rfl
      exact ⟨fuel + 1, s1, by rw [runSweep_buy hsome]; exact hf⟩

lemma runPhase1_mono (d : ℚ) (strategy : Strategy) :
    ∀ (fuel k : ℕ) (s : ClickerState) (b : BuildInfo) (r : SimRes),
      runPhase1 d strategy fuel s b = some r →
      runPhase1 d strategy (fuel + k) s b = some r
  | 0, k, s, b, r, h => absurd h (by simp [runPhase1])
  | fuel + 1, k, s, b, r, h => by
    rw [show fuel + 1 + k = (fuel + k) + 1 from by omega, runPhase1_succ]
    rw [runPhase1_succ] at h
    cases hstep : phase1Step d strategy s b with
    | exit => rw [hstep] at h; exact h
    | err => rw [hstep] at h; exact h
    | cont s' b' =>
      rw [hstep] at h
      exact runPhase1_mono d strategy fuel k s' b' r h

lemma runSweep_mono (d : ℚ) (strategy : Strategy) :
    ∀ (fuel k : ℕ) (s : ClickerState) (b : BuildInfo) (r : ClickerState),
      runSweep d strategy fuel s b = some r →
      runSweep d strategy (fuel + k) s b = some r
  | 0, k, s, b, r, h => absurd h (by simp [runSweep])
  | fuel + 1, k, s, b, r, h => by
    rw [show fuel + 1 + k = (fuel + k) + 1 from by omega, runSweep_succ]
    rw [runSweep_succ] at h
    cases hstep : sweepStep d strategy s b with
    | none => rw [hstep] at h; exact h
    | some s' =>
      rw [hstep] at h
      exact runSweep_mono d strategy fuel k s' b r h

/-- C1 amended: `simulate_clicker` terminates for every horizon and every
strategy, provided every cost the catalog can report is bounded below by
some positive `c`, growth factors are at least 1 and rate contributions
are non-negative (the spec's catalog data model minus zero-cost items).
Both loops are finite: each purchase-and-wait iteration either exits,
advances time by an integer of at least 1 (bounded by the horizon), or
buys at zero wait, strictly shrinking the balance by at least `c`; each
sweep iteration either exits or strictly shrinks the balance by at
least `c`. -/
theorem C1_simulate_clicker_terminates (build_info : BuildInfo)
    (duration : ℚ) (strategy : Strategy) (c : ℚ) (hc : 0 < c)
    (hcost : ∀ i, c ≤ build_info.get_cost i)
    (hgrow : ∀ i, 1 ≤ build_info.growth i)
    (hcps : ∀ i, 0 ≤ build_info.get_cps i) :
    Terminates build_info duration strategy := by
  have hb : CatBound c build_info := ⟨hcost, hgrow, hcps⟩
  have hs : StInv ClickerState.init := by
    constructor <;> norm_num [ClickerState.init]
  obtain ⟨f1, s1, b1, hrun1, hs1, hb1⟩ :=
    runPhase1_terminates duration strategy c hc (m1 duration ClickerState.init)
      (m2 c ClickerState.init) ClickerState.init build_info hs hb rfl rfl
  have hck2 : 0 ≤ (s1.wait (duration - s1.get_time)).current_cookies := by
    unfold ClickerState.wait
    split
    · exact hs1.2
    · rename_i hpos
      have h0 : 0 < duration - s1.get_time := not_le.mp hpos
      simp only [ClickerState.get_cps]
      nlinarith [hs1.1, hs1.2]
  obtain ⟨f2, s3, hrun2⟩ :=
    runSweep_terminates duration strategy c hc b1 hb1.1
      (m2 c (s1.wait (duration - s1.get_time)))
      (s1.wait (duration - s1.get_time)) hck2 rfl
  refine ⟨f1 + f2, ?_⟩
  have hrunA : runPhase1 duration strategy (f1 + f2) ClickerState.init
      build_info.clone = some (.ok s1 b1) :=
    runPhase1_mono duration strategy f1 f2 _ _ _ hrun1
  have hrunB : runSweep duration strategy (f1 + f2)
      (s1.wait (duration - s1.get_time)) b1 = some s3 := by
    have := runSweep_mono duration strategy f2 f1
      (s1.wait (duration - s1.get_time)) b1 s3 hrun2
    rwa [show f2 + f1 = f1 + f2 from by omega] at this
  simp only [simulate_clicker, hrunA, hrunB, Option.isSome_some]

/-- Witness for C1 amended: a one-item catalog with cost 3 ≥ 1 > 0 and the
always-buy strategy terminate at horizon 7. -/
theorem C1_simulate_clicker_terminates_witness :
    Terminates ⟨["A"], fun _ => 3, fun _ => 1, fun _ => 2⟩ 7 stratW :=
  C1_simulate_clicker_terminates ⟨["A"], fun _ => 3, fun _ => 1, fun _ => 2⟩
    7 stratW 1 (by norm_num) (fun i => by norm_num) (fun i => by norm_num)
    (fun i => by norm_num)

lemma zero_cost_loop :
    ∀ (fuel : ℕ) (s : ClickerState) (b : BuildInfo), s.current_time = 0 →
      s.current_cookies = 0 → b.get_cost "A" = 0 →
      runPhase1 0 stratW fuel s b = none
  | 0, _, _, _, _, _ => rfl
  | fuel + 1, s, b, ht, hck, hcost => by
    have hstep : phase1Step 0 stratW s b =
        .cont (s.buy_item "A" (b.get_cost "A") (b.get_cps "A"))
          (b.update_item "A") := by
      unfold phase1Step
      rw [if_neg (by simp [ClickerState.get_time, ht] : ¬ (0 : ℚ) < s.get_time)]
      show (match stratW s.get_cookies s.get_cps s.get_history (0 - s.get_time) b
        with
        | none => Phase1Res.exit
        | some item =>
          match s.time_until (b.get_cost item) with
          | none => Phase1Res.err
          | some wait_time =>
            if (0 : ℚ) < s.get_time + wait_time then Phase1Res.exit
            else
              Phase1Res.cont ((if wait_time = 0 then s else
                s.wait wait_time).buy_item item (b.get_cost item)
                  (b.get_cps item)) (b.update_item "A")) = _
      rw [show stratW s.get_cookies s.get_cps s.get_history (0 - s.get_time) b =
        some "A" from rfl]
      dsimp only
      rw [show s.time_until (b.get_cost "A") = some 0 from by
        simp [ClickerState.time_until, hcost, ClickerState.get_cookies, hck]]
      dsimp only
      rw [if_neg (by simp [ClickerState.get_time, ht] :
        ¬ (0 : ℚ) < s.get_time + 0), if_pos rfl]
    rw [runPhase1_succ, hstep]
    exact zero_cost_loop fuel _ _
      (by simp [ClickerState.buy_item, ClickerState.get_cookies, hck, hcost, ht])
      (by simp [ClickerState.buy_item, ClickerState.get_cookies, hck, hcost])
      (by simp [BuildInfo.update_item, hcost])

/-- C1 counterexample: with a zero-cost item and the always-buy strategy the
purchase-and-wait loop of `simulate_clicker` never advances time and never
exits — no fuel completes it — refuting termination for *every* catalog
and strategy. -/
theorem C1_counterexample_zero_cost : ¬ Terminates zeroCostCat 0 stratW := by
  rintro ⟨fuel, hf⟩
  rw [simulate_clicker] at hf
  rw [zero_cost_loop fuel ClickerState.init zeroCostCat.clone rfl rfl rfl] at hf
  simp at hf
